import Mathlib

/-!
Verification of the LRU cache model and five-stage pipeline controller
(`cache.cpp`, `cycle.cpp`) against its natural-language specification.
The definitions below are a shallow embedding of the C++ source: pure
state-passing functions over `Nat` and `Bool`, mirroring the code's
control flow statement by statement.
-/

/-- Cache construction configuration, from `CacheConfig`. -/
structure CacheConfig where
  cacheSize : Nat
  blockSize : Nat
  ways : Nat
  missLatency : Nat
deriving DecidableEq, Repr

/-- Read/write operation code passed to `Cache::access`. -/
inductive CacheOperation where
  | read
  | write
deriving DecidableEq, Repr

/-- One cache way: tag word, valid bit and LRU timestamp, from the
parallel arrays `cacheArray`, `validBits`, `LRUCounter`. -/
structure Way where
  tag : Nat
  valid : Bool
  lru : Nat
deriving DecidableEq, Repr

/-- Default way: freshly constructed entry (tag 0, invalid, stamp 0). -/
def dw : Way := ⟨0, false, 0⟩

/-- Cache state, from the `Cache` class fields. -/
structure Cache where
  hits : Nat
  misses : Nat
  time : Nat
  numSets : Nat
  config : CacheConfig
  sets : List (List Way)
deriving DecidableEq, Repr

/-- `Cache::Cache`: derive `numSets` and allocate the arrays. -/
def mkCache (cfg : CacheConfig) : Cache :=
  let numBlocks := cfg.cacheSize / cfg.blockSize
  let numSets := if cfg.ways = 0 then 0 else numBlocks / cfg.ways
  if numSets = 0 ∨ cfg.ways = 0 then
    { hits := 0, misses := 0, time := 0, numSets := numSets, config := cfg, sets := [] }
  else
    { hits := 0, misses := 0, time := 0, numSets := numSets, config := cfg,
      sets := List.replicate numSets (List.replicate cfg.ways dw) }

/-- The defensive guard shared by `Cache::access` and `Cache::invalidate`. -/
def Cache.degenerate (c : Cache) : Prop :=
  c.numSets = 0 ∨ c.config.ways = 0 ∨ c.config.blockSize = 0

instance (c : Cache) : Decidable c.degenerate := by
  unfold Cache.degenerate; infer_instance

/-- Halving loop of `intLog2`, with enough fuel to reach a value ≤ 1. -/
def intLog2Go : Nat → Nat → Nat
  | 0, _ => 0
  | fuel + 1, x => if x ≤ 1 then 0 else intLog2Go fuel (x / 2) + 1

/-- `intLog2`: floor of log2 (0 on inputs 0 and 1), as in the source;
`x` itself is always enough fuel since the loop halves its argument. -/
def intLog2 (x : Nat) : Nat := intLog2Go x x

/-- Number of block-offset bits of the address split. -/
def Cache.blockOffsetBits (c : Cache) : Nat := intLog2 c.config.blockSize

/-- Number of index bits of the address split
(`numSets > 1 ? intLog2(numSets) : 0`). -/
def Cache.indexBits (c : Cache) : Nat :=
  if 1 < c.numSets then intLog2 c.numSets else 0

/-- Set index extracted from an address, including the defensive clamp
`index %= numSets` of the source. -/
def Cache.index (c : Cache) (addr : Nat) : Nat :=
  let i := if c.indexBits = 0 then 0
           else addr / 2 ^ c.blockOffsetBits % 2 ^ c.indexBits
  if c.numSets ≤ i then i % c.numSets else i

/-- Tag extracted from an address. -/
def Cache.tagOf (c : Cache) (addr : Nat) : Nat :=
  addr / 2 ^ (c.blockOffsetBits + c.indexBits)

/-- Index of the first valid way holding `tg`, scanning ways in order
(the hit loop of `Cache::access` and the loop of `Cache::invalidate`). -/
def scanHit (tg : Nat) : List Way → Option Nat
  | [] => none
  | w :: ws =>
      if w.valid && w.tag == tg then some 0
      else (scanHit tg ws).map (· + 1)

/-- Index of the first invalid way (the fill loop of `Cache::access`). -/
def scanInvalid : List Way → Option Nat
  | [] => none
  | w :: ws =>
      if w.valid then (scanInvalid ws).map (· + 1) else some 0

/-- The LRU scan of `Cache::access`: walk the remaining ways keeping the
best (index, stamp) pair, replacing it on a strictly smaller stamp. -/
def lruScan : List Way → Nat → Nat → Nat → Nat × Nat
  | [], _, bi, bv => (bi, bv)
  | w :: ws, i, bi, bv =>
      if w.lru < bv then lruScan ws (i + 1) i w.lru
      else lruScan ws (i + 1) bi bv

/-- Index of the way with the least LRU stamp (first one on ties). -/
def minLRUIdx : List Way → Nat
  | [] => 0
  | w :: ws => (lruScan ws 1 0 w.lru).1

/-- Replace the way at one index, leaving the rest of the set alone. -/
def modifyIdx (f : Way → Way) : List Way → Nat → List Way
  | [], _ => []
  | w :: ws, 0 => f w :: ws
  | w :: ws, n + 1 => w :: modifyIdx f ws n

/-- Way chosen on a miss: the first invalid way, or the LRU way when
every way is valid (steps 2 and 3 of `Cache::access`). -/
def installIdx (set : List Way) : Nat :=
  match scanInvalid set with
  | some k => k
  | none => minLRUIdx set

/-- `Cache::access`. The operation code is ignored for placement, as in
the source (`(void)readWrite`). -/
def Cache.access (c : Cache) (addr : Nat) (_op : CacheOperation) : Cache × Bool :=
  if c.degenerate then ({ c with misses := c.misses + 1 }, false)
  else
    let idx := c.index addr
    let tg := c.tagOf addr
    let set := c.sets.getD idx []
    match scanHit tg set with
    | some j =>
        ({ c with hits := c.hits + 1, time := c.time + 1,
                  sets := c.sets.set idx
                    (modifyIdx (fun w => { w with lru := c.time + 1 }) set j) }, true)
    | none =>
        ({ c with misses := c.misses + 1, time := c.time + 1,
                  sets := c.sets.set idx
                    (modifyIdx (fun _ => ⟨tg, true, c.time + 1⟩) set (installIdx set)) }, false)

/-- `Cache::invalidate`: clear the valid bit of the first valid way
holding the address's tag, if any. -/
def Cache.invalidate (c : Cache) (addr : Nat) : Cache :=
  if c.degenerate then c
  else
    let idx := c.index addr
    let tg := c.tagOf addr
    let set := c.sets.getD idx []
    match scanHit tg set with
    | some j =>
        ({ c with sets := c.sets.set idx
                    (modifyIdx (fun w => { w with valid := false }) set j) } : Cache)
    | none => c

/-- Number of valid ways holding a given tag in one set. -/
def countMatches (tg : Nat) : List Way → Nat
  | [] => 0
  | w :: ws => (if w.valid && w.tag == tg then 1 else 0) + countMatches tg ws

/-- The set an address maps to. -/
def Cache.setAt (c : Cache) (addr : Nat) : List Way :=
  c.sets.getD (c.index addr) []

/-- Pipeline stage status, from `StageStatus`. -/
inductive StageStatus where
  | IDLE
  | NORMAL
  | SPECULATIVE
  | SQUASHED
  | BUBBLE
deriving DecidableEq, Repr

/-- Instruction opcodes: the closed set of the data model. The
controller itself only tests for the three control opcodes. -/
inductive Opcode where
  | LOAD
  | STORE
  | BRANCH
  | JAL
  | JALR
  | OP
  | OP_IMM
  | LUI
  | AUIPC
  | SYSTEM
  | HALT
deriving DecidableEq, Repr

/-- `Simulator::Instruction`: the latch value fields the controller
inspects or mutates. -/
structure Instruction where
  instruction : Nat
  PC : Nat
  nextPC : Nat
  opcode : Opcode
  rs1 : Nat
  rs2 : Nat
  rd : Nat
  readsRs1 : Bool
  readsRs2 : Bool
  writesRd : Bool
  readsMem : Bool
  writesMem : Bool
  doesArithLogic : Bool
  op1Val : Nat
  op2Val : Nat
  arithResult : Nat
  memAddress : Nat
  memResult : Nat
  isNop : Bool
  isHalt : Bool
  isLegal : Bool
  status : StageStatus
deriving DecidableEq, Repr

instance : Inhabited Instruction :=
  ⟨{ instruction := 0, PC := 0, nextPC := 0, opcode := .OP_IMM, rs1 := 0,
     rs2 := 0, rd := 0, readsRs1 := false, readsRs2 := false, writesRd := false,
     readsMem := false, writesMem := false, doesArithLogic := false,
     op1Val := 0, op2Val := 0, arithResult := 0, memAddress := 0, memResult := 0,
     isNop := false, isHalt := false, isLegal := false, status := .IDLE }⟩

/-- `nop(status)`: the encoded architectural NOP `0x00000013` with the
given status (`isLegal`, `isNop` set, everything else defaulted). -/
def nop (st : StageStatus) : Instruction :=
  { (default : Instruction) with
    instruction := 0x00000013, isLegal := true, isNop := true, status := st }

/-- The functional semantics façade (outside the core): the pure stage
functions the controller invokes. The controller is parametric in them. -/
structure Sem where
  simIF : Nat → Instruction
  simID : Instruction → Instruction
  simEX : Instruction → Instruction
  simMEM : Instruction → Instruction
  simWB : Instruction → Instruction
  simNextPCResolution : Instruction → Instruction

/-- Controller state: the five stage latches and the global counters of
`cycle.cpp` (`PC`, `cycleCount`, `stallCyclesCount`, `loadStallCount`,
`iCacheStallCycles`, `dCacheStallCycles`, both caches). -/
structure SimState where
  ifInst : Instruction
  idInst : Instruction
  exInst : Instruction
  memInst : Instruction
  wbInst : Instruction
  PC : Nat
  cycleCount : Nat
  stallCyclesCount : Nat
  loadStallCount : Nat
  iCacheStallCycles : Nat
  dCacheStallCycles : Nat
  iCache : Cache
  dCache : Cache
deriving DecidableEq, Repr

/-- How one `runCycles` iteration ends: keep looping, `break` on halt,
`return ERROR` on a memory exception, or keep looping with the sticky
fetch-side error status. -/
inductive TickOutcome where
  | normal
  | haltStop
  | errorStop
  | errorCont
deriving DecidableEq, Repr

/-- `Status` values returned by `runCycles`. -/
inductive Status where
  | SUCCESS
  | HALT
  | ERROR
deriving DecidableEq, Repr

/-- The `forwarding` helper of `cycle.cpp`: nothing if the register is
not read or is x0; EX arith result first; else MEM load result, else
MEM arith result. -/
def forwardOp (rs : Nat) (readsRs : Bool) (opVal : Nat)
    (exPrev memPrev : Instruction) : Nat :=
  if !readsRs || rs == 0 then opVal
  else if exPrev.writesRd && exPrev.rd == rs && exPrev.doesArithLogic then
    exPrev.arithResult
  else if memPrev.writesRd && memPrev.rd == rs then
    (if memPrev.readsMem then memPrev.memResult
     else if memPrev.doesArithLogic then memPrev.arithResult
     else opVal)
  else opVal

/-- Apply `forwarding` to both operand values of an ID snapshot. -/
def forwardBoth (idp exPrev memPrev : Instruction) : Instruction :=
  { idp with
    op1Val := forwardOp idp.rs1 idp.readsRs1 idp.op1Val exPrev memPrev,
    op2Val := forwardOp idp.rs2 idp.readsRs2 idp.op2Val exPrev memPrev }

/-- `idPrevIsBranch`: the ID snapshot holds a control opcode. -/
def isCtrlB (i : Instruction) : Bool :=
  decide (i.opcode = .BRANCH) || decide (i.opcode = .JAL) ||
    decide (i.opcode = .JALR)

/-- `idPrevIsStore`. -/
def isStoreB (i : Instruction) : Bool := i.writesMem && !i.readsMem

/-- Load-use condition exactly as evaluated by the source; note the
register comparisons do not consult `readsRs1`/`readsRs2`. -/
def loadUseCondB (idp exPrev : Instruction) : Bool :=
  exPrev.readsMem && exPrev.writesRd && !(exPrev.rd == 0) && !(isCtrlB idp) &&
    ((idp.rs1 == exPrev.rd) || ((idp.rs2 == exPrev.rd) && !(isStoreB idp)))

/-- Arith-branch stall condition (checked after load-use). -/
def arithBranchCondB (idp exPrev : Instruction) : Bool :=
  exPrev.doesArithLogic && exPrev.writesRd && !(exPrev.rd == 0) && isCtrlB idp &&
    ((idp.rs1 == exPrev.rd) || (idp.rs2 == exPrev.rd))

/-- Load-branch stall condition (checked last). -/
def loadBranchCondB (idp exPrev : Instruction) : Bool :=
  exPrev.readsMem && exPrev.writesRd && !(exPrev.rd == 0) && isCtrlB idp &&
    ((idp.rs1 == exPrev.rd) || (idp.rs2 == exPrev.rd))

/-- Outcome of the hazard-detection block. -/
structure HazardDecision where
  stallID : Bool
  bubbleEx : Bool
  stallCyclesCount : Nat
  loadStallCount : Nat
deriving DecidableEq, Repr

/-- Hazard detection of `runCycles`, in the source's priority order:
pending second load-branch cycle, then load-use, arith-branch,
load-branch; only load-use and load-branch bump `loadStallCount`. -/
def hazardDetect (idp exPrev : Instruction) (pending cnt : Nat) : HazardDecision :=
  if 0 < pending then ⟨true, true, pending - 1, cnt⟩
  else if loadUseCondB idp exPrev then ⟨true, true, 0, cnt + 1⟩
  else if arithBranchCondB idp exPrev then ⟨true, true, 0, cnt⟩
  else if loadBranchCondB idp exPrev then ⟨true, true, 1, cnt + 1⟩
  else ⟨false, false, 0, cnt⟩

/-- The `dStall` branch of `runCycles`: republish IF, ID, EX and MEM,
run writeback of the frozen MEM snapshot into WB, decrement the D-miss
counter; halt if that writeback is the halt instruction. -/
def tickDStall (sem : Sem) (s : SimState) : SimState × TickOutcome :=
  let wb := sem.simWB s.memInst
  ({ s with wbInst := wb,
            dCacheStallCycles := s.dCacheStallCycles - 1,
            cycleCount := s.cycleCount + 1 },
   if wb.isHalt then .haltStop else .normal)

/-- The memory-exception branch of `runCycles`: the older MEM snapshot
retires through `simWB`, the excepting instruction and all younger
stages become squashed NOPs, both cache-stall counters clear, the PC
jumps to the handler `0x8000`, and the call returns ERROR. -/
def tickMemError (sem : Sem) (s : SimState) : SimState × TickOutcome :=
  ({ s with wbInst := sem.simWB s.memInst,
            memInst := nop .SQUASHED,
            exInst := nop .SQUASHED,
            idInst := nop .SQUASHED,
            ifInst := nop .SQUASHED,
            PC := 0x8000,
            iCacheStallCycles := 0,
            dCacheStallCycles := 0,
            cycleCount := s.cycleCount + 1 }, .errorStop)

/-- Main path of one `runCycles` iteration (no D-stall in progress, no
memory exception), mirroring the source block by block: MEM/WB with
the D-cache query, hazard detection, EX with forwarding, branch
resolution in ID, PC control, WB→MEM store-data forwarding, IF with
the I-cache query. -/
def tickMain (sem : Sem) (memSize : Nat) (s : SimState) : SimState × TickOutcome :=
  let ifPrev := s.ifInst
  let idPrev := s.idInst
  let exPrev := s.exInst
  let memPrev := s.memInst
  let iStall := 0 < s.iCacheStallCycles
  let needData := exPrev.readsMem || exPrev.writesMem
  let dRes := if needData then
      s.dCache.access exPrev.memAddress (if exPrev.readsMem then .read else .write)
    else (s.dCache, true)
  let dStallNew := if needData && !dRes.2 then s.dCache.config.missLatency else 0
  let memNew := sem.simMEM exPrev
  let wbNew := if iStall then nop .BUBBLE else sem.simWB memPrev
  let hz := hazardDetect idPrev exPrev s.stallCyclesCount s.loadStallCount
  let idPrev1 := if hz.bubbleEx then idPrev else forwardBoth idPrev exPrev memPrev
  let exNew0 := if hz.bubbleEx then nop .BUBBLE else sem.simEX idPrev1
  let isBr := isCtrlB idPrev
  let idPrev2 := if isBr then
      sem.simNextPCResolution (forwardBoth idPrev1 exPrev memPrev)
    else idPrev1
  let branchTaken := isBr && !hz.stallID && !(idPrev2.nextPC == idPrev2.PC + 4)
  let newIdInst0 := if hz.stallID || iStall then idPrev2 else sem.simID ifPrev
  let newIdInst := if !hz.stallID && isBr && branchTaken then nop .SQUASHED
    else newIdInst0
  let squashIF := !hz.stallID && !iStall && isBr && branchTaken
  let PCn := if !hz.stallID && !iStall then
      (if isBr then (if branchTaken then idPrev2.nextPC else idPrev2.PC + 4)
       else newIdInst.nextPC)
    else s.PC
  let iCyc0 := if squashIF then 0 else s.iCacheStallCycles
  let exNew := if exPrev.writesMem && !exPrev.readsMem && exPrev.readsRs2 &&
      !(exPrev.rs2 == 0) && wbNew.writesRd && wbNew.rd == exPrev.rs2 &&
      wbNew.readsMem
    then { exNew0 with op2Val := wbNew.memResult } else exNew0
  let ifRes : Instruction × Cache × Nat × Bool :=
    if hz.stallID then (ifPrev, s.iCache, iCyc0, false)
    else if squashIF then (ifPrev, s.iCache, iCyc0, false)
    else if iStall then (ifPrev, s.iCache, iCyc0 - 1, false)
    else if memSize ≤ PCn then (sem.simIF 0x8000, s.iCache, iCyc0, true)
    else
      let r := s.iCache.access PCn .read
      ({ sem.simIF PCn with status := .SPECULATIVE }, r.1,
       if r.2 then iCyc0 else s.iCache.config.missLatency, false)
  let outcome := if wbNew.isHalt then TickOutcome.haltStop
    else if ifRes.2.2.2 then TickOutcome.errorCont
    else TickOutcome.normal
  ({ ifInst := ifRes.1, idInst := newIdInst, exInst := exNew, memInst := memNew,
     wbInst := wbNew, PC := PCn, cycleCount := s.cycleCount + 1,
     stallCyclesCount := hz.stallCyclesCount, loadStallCount := hz.loadStallCount,
     iCacheStallCycles := ifRes.2.2.1, dCacheStallCycles := dStallNew,
     iCache := ifRes.2.1, dCache := dRes.1 }, outcome)

/-- One iteration of the `runCycles` loop: the in-progress D-miss
branch, the memory-exception branch, or the main path. -/
def tick (sem : Sem) (memSize : Nat) (s : SimState) : SimState × TickOutcome :=
  if 0 < s.dCacheStallCycles then tickDStall sem s
  else if (s.exInst.readsMem || s.exInst.writesMem) &&
      decide (memSize ≤ s.exInst.memAddress) then tickMemError sem s
  else tickMain sem memSize s

/-- `runCycles` iteration with the sticky `status` variable: a memory
exception returns ERROR at once, halt breaks, a fetch-side error keeps
looping but leaves ERROR in `status`. -/
def runCyclesAux (sem : Sem) (memSize : Nat) :
    Nat → SimState → Status → SimState × Status
  | 0, s, acc => (s, acc)
  | n + 1, s, acc =>
    match tick sem memSize s with
    | (s', .errorStop) => (s', .ERROR)
    | (s', .haltStop) => (s', .HALT)
    | (s', .errorCont) => runCyclesAux sem memSize n s' .ERROR
    | (s', .normal) => runCyclesAux sem memSize n s' acc

/-- `runCycles(n)` for positive `n` (finite-fuel form of the loop). -/
def runCycles (sem : Sem) (memSize : Nat) (n : Nat) (s : SimState) :
    SimState × Status :=
  runCyclesAux sem memSize n s .SUCCESS

/-- `initSimulator`: all five latches are idle NOPs, `PC = 0`, all stall
counters zero, caches freshly constructed. No fetch is performed. -/
def initSimulator (iCfg dCfg : CacheConfig) : SimState :=
  { ifInst := nop .IDLE, idInst := nop .IDLE, exInst := nop .IDLE,
    memInst := nop .IDLE, wbInst := nop .IDLE,
    PC := 0, cycleCount := 0, stallCyclesCount := 0, loadStallCount := 0,
    iCacheStallCycles := 0, dCacheStallCycles := 0,
    iCache := mkCache iCfg, dCache := mkCache dCfg }

/-- State after `n` iterations of the cycle loop. -/
def steps (sem : Sem) (memSize : Nat) : Nat → SimState → SimState
  | 0, s => s
  | n + 1, s => steps sem memSize n (tick sem memSize s).1

/-- This cycle fires a load-use stall: the hazard block runs (no
D-stall, no memory exception, no pending load-branch cycle) and the
load-use condition holds. -/
def loadUseFires (memSize : Nat) (s : SimState) : Bool :=
  decide (s.dCacheStallCycles = 0) &&
  !((s.exInst.readsMem || s.exInst.writesMem) &&
    decide (memSize ≤ s.exInst.memAddress)) &&
  decide (s.stallCyclesCount = 0) &&
  loadUseCondB s.idInst s.exInst

/-- This cycle fires the first cycle of a load-branch stall. -/
def loadBranchFires (memSize : Nat) (s : SimState) : Bool :=
  decide (s.dCacheStallCycles = 0) &&
  !((s.exInst.readsMem || s.exInst.writesMem) &&
    decide (memSize ≤ s.exInst.memAddress)) &&
  decide (s.stallCyclesCount = 0) &&
  !(loadUseCondB s.idInst s.exInst) &&
  !(arithBranchCondB s.idInst s.exInst) &&
  loadBranchCondB s.idInst s.exInst

/-- Number of cycles among the next `n` whose start state satisfies `p`. -/
def countFires (p : SimState → Bool) (sem : Sem) (memSize : Nat) :
    Nat → SimState → Nat
  | 0, _ => 0
  | n + 1, s =>
    (if p s then 1 else 0) + countFires p sem memSize n (tick sem memSize s).1

/-- A trivial concrete semantics façade used for concrete evaluations:
each stage function is the identity (fetch returns an empty instruction
at the requested PC). -/
def semId : Sem :=
  { simIF := fun pc => { (default : Instruction) with PC := pc },
    simID := fun i => i,
    simEX := fun i => i,
    simMEM := fun i => i,
    simWB := fun i => i,
    simNextPCResolution := fun i => i }

/-- A concrete base state: freshly initialised simulator with two small
2-way caches. -/
def baseState : SimState := initSimulator ⟨64, 16, 2, 10⟩ ⟨64, 16, 2, 10⟩

/-- Concrete start-of-cycle state for the D-stall claim: a D-miss stall
is in progress and the frozen MEM latch holds a normal instruction. -/
def c2State : SimState :=
  { baseState with
    dCacheStallCycles := 3,
    memInst := { (default : Instruction) with
      instruction := 0x1234, status := .NORMAL } }

/-- Concrete state for the C3 counterexample: EX holds a load writing
r5 and ID has `rs1 = 5` with `readsRs1 = false` (and `rs2` not
matching); ID is not a control instruction and not a store. -/
def c3State : SimState :=
  { baseState with
    exInst := { (default : Instruction) with
      readsMem := true, writesRd := true, rd := 5, opcode := .LOAD },
    idInst := { (default : Instruction) with
      rs1 := 5, rs2 := 7, readsRs1 := false, readsRs2 := false,
      opcode := .OP } }

/-- Concrete state for the C6 witness: EX holds a load whose address
`5000` is past `MEMORY_SIZE = 4096`, MEM holds an ordinary older
instruction. -/
def c6State : SimState :=
  { baseState with
    exInst := { (default : Instruction) with
      readsMem := true, writesRd := true, rd := 2, memAddress := 5000,
      opcode := .LOAD, status := .NORMAL },
    memInst := { (default : Instruction) with
      instruction := 0x777, writesRd := true, rd := 1, status := .NORMAL } }

/-- Concrete semantics for the C5 scenario: next-PC resolution always
redirects to 64; the other stage functions are the identity. -/
def sem5 : Sem :=
  { semId with simNextPCResolution := fun i => { i with nextPC := 64 } }

/-- Concrete state for C5: a branch at PC 0 sits in ID, a speculative
fetch sits in IF, EX/MEM are harmless. -/
def c5State : SimState :=
  { baseState with
    idInst := { (default : Instruction) with
      opcode := .BRANCH, PC := 0, nextPC := 4, instruction := 0xB0B,
      status := .NORMAL },
    ifInst := { (default : Instruction) with
      instruction := 0xABCD, PC := 4, status := .SPECULATIVE } }

lemma modifyIdx_length (f : Way → Way) :
    ∀ (l : List Way) (i : Nat), (modifyIdx f l i).length = l.length
  | [], _ => rfl
  | _ :: _, 0 => rfl
  | _ :: ws, n + 1 => by
    simpa [modifyIdx] using modifyIdx_length f ws n

lemma getD_modifyIdx_self (f : Way → Way) :
    ∀ (l : List Way) (i : Nat), i < l.length →
      (modifyIdx f l i).getD i dw = f (l.getD i dw)
  | [], i, h => by simp at h
  | w :: ws, 0, _ => by simp [modifyIdx]
  | w :: ws, i + 1, h => by
    simpa [modifyIdx] using
      getD_modifyIdx_self f ws i (Nat.lt_of_succ_lt_succ h)

lemma getD_modifyIdx_ne (f : Way → Way) :
    ∀ (l : List Way) (i k : Nat), k ≠ i →
      (modifyIdx f l i).getD k dw = l.getD k dw
  | [], _, _, _ => by simp [modifyIdx]
  | w :: ws, 0, 0, h => absurd rfl h
  | w :: ws, 0, k + 1, _ => by simp [modifyIdx]
  | w :: ws, i + 1, 0, _ => by simp [modifyIdx]
  | w :: ws, i + 1, k + 1, h => by
    simpa [modifyIdx] using
      getD_modifyIdx_ne f ws i k (fun hk => h (by omega))

lemma getD_set_sets_self :
    ∀ (l : List (List Way)) (i : Nat) (x : List Way), i < l.length →
      (l.set i x).getD i [] = x
  | [], i, x, h => by simp at h
  | s :: ss, 0, x, _ => by simp
  | s :: ss, i + 1, x, h => by
    simpa using getD_set_sets_self ss i x (Nat.lt_of_succ_lt_succ h)

lemma getD_set_sets_ne :
    ∀ (l : List (List Way)) (i k : Nat) (x : List Way), k ≠ i →
      (l.set i x).getD k [] = l.getD k []
  | [], _, _, _, _ => by simp
  | s :: ss, 0, 0, x, h => absurd rfl h
  | s :: ss, 0, k + 1, x, _ => by simp
  | s :: ss, i + 1, 0, x, _ => by simp
  | s :: ss, i + 1, k + 1, x, h => by
    simpa using getD_set_sets_ne ss i k x (fun hk => h (by omega))

lemma getD_mem_of_lt {α : Type} (d : α) :
    ∀ (l : List α) (k : Nat), k < l.length → l.getD k d ∈ l
  | [], k, h => by simp at h
  | w :: ws, 0, _ => by simp
  | w :: ws, k + 1, h => by
    simpa using Or.inr (getD_mem_of_lt d ws k (Nat.lt_of_succ_lt_succ h))

lemma scanHit_none_iff (tg : Nat) :
    ∀ l : List Way,
      scanHit tg l = none ↔ ∀ w ∈ l, ¬(w.valid = true ∧ w.tag = tg)
  | [] => by simp [scanHit]
  | w :: ws => by
    by_cases h : w.valid && w.tag == tg
    · simp only [scanHit, if_pos h]
      simp only [Bool.and_eq_true, beq_iff_eq] at h
      simp [h]
    · simp only [scanHit, if_neg h, Option.map_eq_none']
      rw [scanHit_none_iff tg ws]
      simp only [Bool.and_eq_true, beq_iff_eq] at h
      constructor
      · intro hall x hx
        rcases List.mem_cons.mp hx with rfl | hx
        · intro hc; exact h ⟨hc.1, hc.2⟩
        · exact hall x hx
      · intro hall x hx
        exact hall x (List.mem_cons_of_mem w hx)

lemma scanHit_some (tg : Nat) :
    ∀ (l : List Way) (j : Nat), scanHit tg l = some j →
      j < l.length ∧ (l.getD j dw).valid = true ∧ (l.getD j dw).tag = tg ∧
      ∀ k, k < j → ¬(((l.getD k dw).valid = true) ∧ (l.getD k dw).tag = tg)
  | [], j, h => by simp [scanHit] at h
  | w :: ws, j, h => by
    by_cases hc : w.valid && w.tag == tg
    · simp only [scanHit, if_pos hc, Option.some.injEq] at h
      subst h
      simp only [Bool.and_eq_true, beq_iff_eq] at hc
      exact ⟨Nat.succ_pos _, by simpa using hc.1, by simpa using hc.2,
        fun k hk => absurd hk (Nat.not_lt_zero k)⟩
    · simp only [scanHit, if_neg hc, Option.map_eq_some'] at h
      obtain ⟨j', hj', rfl⟩ := h
      obtain ⟨h1, h2, h3, h4⟩ := scanHit_some tg ws j' hj'
      refine ⟨Nat.succ_lt_succ h1, by simpa using h2, by simpa using h3, ?_⟩
      intro k hk
      match k with
      | 0 =>
        simp only [Bool.and_eq_true, beq_iff_eq] at hc
        simpa using fun hv ht => hc ⟨hv, ht⟩
      | k + 1 =>
        simpa using h4 k (Nat.lt_of_succ_lt_succ hk)

lemma scanInvalid_some :
    ∀ (l : List Way) (j : Nat), scanInvalid l = some j →
      j < l.length ∧ (l.getD j dw).valid = false ∧
      ∀ k, k < j → (l.getD k dw).valid = true
  | [], j, h => by simp [scanInvalid] at h
  | w :: ws, j, h => by
    by_cases hc : w.valid
    · simp only [scanInvalid, if_pos hc, Option.map_eq_some'] at h
      obtain ⟨j', hj', rfl⟩ := h
      obtain ⟨h1, h2, h3⟩ := scanInvalid_some ws j' hj'
      refine ⟨Nat.succ_lt_succ h1, by simpa using h2, ?_⟩
      intro k hk
      match k with
      | 0 => simpa using hc
      | k + 1 => simpa using h3 k (Nat.lt_of_succ_lt_succ hk)
    · simp only [scanInvalid, if_neg hc, Option.some.injEq] at h
      subst h
      exact ⟨Nat.succ_pos _, by simpa using Bool.of_not_eq_true hc,
        fun k hk => absurd hk (Nat.not_lt_zero k)⟩

lemma scanInvalid_none :
    ∀ l : List Way, scanInvalid l = none → ∀ w ∈ l, w.valid = true
  | [] => by simp
  | w :: ws => by
    by_cases hc : w.valid
    · intro h x hx
      rcases List.mem_cons.mp hx with rfl | hx
      · exact hc
      · simp only [scanInvalid, if_pos hc, Option.map_eq_none'] at h
        exact scanInvalid_none ws h x hx
    · intro h
      simp [scanInvalid, if_neg hc] at h

lemma lruScan_le :
    ∀ (ws : List Way) (i bi bv : Nat),
      (lruScan ws i bi bv).2 ≤ bv ∧ ∀ w ∈ ws, (lruScan ws i bi bv).2 ≤ w.lru
  | [], _, _, _ => ⟨Nat.le_refl _, by simp⟩
  | w :: ws, i, bi, bv => by
    by_cases hc : w.lru < bv
    · simp only [lruScan, if_pos hc]
      obtain ⟨h1, h2⟩ := lruScan_le ws (i + 1) i w.lru
      refine ⟨Nat.le_of_lt (Nat.lt_of_le_of_lt h1 hc), ?_⟩
      intro x hx
      rcases List.mem_cons.mp hx with rfl | hx
      · exact h1
      · exact h2 x hx
    · simp only [lruScan, if_neg hc]
      obtain ⟨h1, h2⟩ := lruScan_le ws (i + 1) bi bv
      refine ⟨h1, ?_⟩
      intro x hx
      rcases List.mem_cons.mp hx with rfl | hx
      · exact Nat.le_trans h1 (Nat.le_of_not_lt hc)
      · exact h2 x hx

lemma lruScan_mem :
    ∀ (ws : List Way) (i bi bv : Nat),
      ((lruScan ws i bi bv).1 = bi ∧ (lruScan ws i bi bv).2 = bv) ∨
      (∃ k, k < ws.length ∧ (lruScan ws i bi bv).1 = i + k ∧
        (ws.getD k dw).lru = (lruScan ws i bi bv).2)
  | [], _, _, _ => Or.inl ⟨rfl, rfl⟩
  | w :: ws, i, bi, bv => by
    by_cases hc : w.lru < bv
    · simp only [lruScan, if_pos hc]
      rcases lruScan_mem ws (i + 1) i w.lru with ⟨h1, h2⟩ | ⟨k, hk, h1, h2⟩
      · exact Or.inr ⟨0, Nat.succ_pos _, by simpa using h1, by simp [h2]⟩
      · exact Or.inr ⟨k + 1, Nat.succ_lt_succ hk, by omega, by simpa using h2⟩
    · simp only [lruScan, if_neg hc]
      rcases lruScan_mem ws (i + 1) bi bv with ⟨h1, h2⟩ | ⟨k, hk, h1, h2⟩
      · exact Or.inl ⟨h1, h2⟩
      · exact Or.inr ⟨k + 1, Nat.succ_lt_succ hk, by omega, by simpa using h2⟩

lemma minLRUIdx_spec (l : List Way) (hne : l ≠ []) :
    minLRUIdx l < l.length ∧
    ∀ k, k < l.length → (l.getD (minLRUIdx l) dw).lru ≤ (l.getD k dw).lru := by
  match l with
  | [] => exact absurd rfl hne
  | w :: ws =>
    simp only [minLRUIdx]
    obtain ⟨hle1, hle2⟩ := lruScan_le ws 1 0 w.lru
    have hval : ((w :: ws).getD (lruScan ws 1 0 w.lru).1 dw).lru =
        (lruScan ws 1 0 w.lru).2 ∧ (lruScan ws 1 0 w.lru).1 < ws.length + 1 := by
      rcases lruScan_mem ws 1 0 w.lru with ⟨h1, h2⟩ | ⟨k, hk, h1, h2⟩
      · rw [h1, h2]; exact ⟨by simp, Nat.succ_pos _⟩
      · rw [h1]
        constructor
        · have : (1 : Nat) + k = k + 1 := Nat.add_comm 1 k
          rw [this]
          simpa using h2
        · omega
    refine ⟨by simpa using hval.2, ?_⟩
    intro k hk
    rw [hval.1]
    match k with
    | 0 => simpa using hle1
    | k + 1 =>
      simpa using hle2 _ (getD_mem_of_lt dw ws k (Nat.lt_of_succ_lt_succ hk))

lemma index_lt (c : Cache) (addr : Nat) (h : c.numSets ≠ 0) :
    c.index addr < c.numSets := by
  unfold Cache.index
  have hpos := Nat.pos_of_ne_zero h
  dsimp only
  split <;> split <;> first | exact Nat.mod_lt _ hpos | omega

lemma access_hit_eq (c : Cache) (addr : Nat) (op : CacheOperation) (j : Nat)
    (hdeg : ¬c.degenerate)
    (hscan : scanHit (c.tagOf addr) (c.sets.getD (c.index addr) []) = some j) :
    c.access addr op =
      ({ c with hits := c.hits + 1, time := c.time + 1,
                sets := c.sets.set (c.index addr)
                  (modifyIdx (fun w => { w with lru := c.time + 1 })
                    (c.sets.getD (c.index addr) []) j) }, true) := by
  unfold Cache.access
  rw [if_neg hdeg]
  simp only [hscan]

lemma access_miss_eq (c : Cache) (addr : Nat) (op : CacheOperation)
    (hdeg : ¬c.degenerate)
    (hscan : scanHit (c.tagOf addr) (c.sets.getD (c.index addr) []) = none) :
    c.access addr op =
      ({ c with misses := c.misses + 1, time := c.time + 1,
                sets := c.sets.set (c.index addr)
                  (modifyIdx (fun _ => ⟨c.tagOf addr, true, c.time + 1⟩)
                    (c.sets.getD (c.index addr) [])
                    (installIdx (c.sets.getD (c.index addr) []))) }, false) := by
  unfold Cache.access
  rw [if_neg hdeg]
  simp only [hscan]

/-- C1: on a non-degenerate configuration, an access hits exactly when a
valid way of the indexed set holds the tag (hits counter +1, that way's
stamp becomes the incremented clock); otherwise it misses (misses +1,
tag installed in the first invalid way, or the minimum-stamp way when
all are valid, stamped with the incremented clock); the touched way's
new stamp is strictly above every other stamp of the set. -/
theorem cache_access_correct (c : Cache) (addr : Nat) (op : CacheOperation)
    (hns : c.numSets ≠ 0) (hw : c.config.ways ≠ 0) (hb : c.config.blockSize ≠ 0)
    (hlen : c.sets.length = c.numSets)
    (hways : ∀ s ∈ c.sets, s.length = c.config.ways)
    (hst : ∀ s ∈ c.sets, ∀ w ∈ s, w.lru ≤ c.time) :
    ((c.access addr op).1.time = c.time + 1) ∧
    ((∃ w ∈ c.setAt addr, w.valid = true ∧ w.tag = c.tagOf addr) →
      (c.access addr op).2 = true ∧
      (c.access addr op).1.hits = c.hits + 1 ∧
      (c.access addr op).1.misses = c.misses ∧
      ∃ j, j < (c.setAt addr).length ∧
        ((c.setAt addr).getD j dw).valid = true ∧
        ((c.setAt addr).getD j dw).tag = c.tagOf addr ∧
        (c.access addr op).1.setAt addr =
          modifyIdx (fun w => { w with lru := c.time + 1 }) (c.setAt addr) j ∧
        (((c.access addr op).1.setAt addr).getD j dw).lru = c.time + 1 ∧
        ∀ k, k < ((c.access addr op).1.setAt addr).length → k ≠ j →
          (((c.access addr op).1.setAt addr).getD k dw).lru < c.time + 1) ∧
    ((¬∃ w ∈ c.setAt addr, w.valid = true ∧ w.tag = c.tagOf addr) →
      (c.access addr op).2 = false ∧
      (c.access addr op).1.misses = c.misses + 1 ∧
      (c.access addr op).1.hits = c.hits ∧
      ∃ j, j < (c.setAt addr).length ∧
        (c.access addr op).1.setAt addr =
          modifyIdx (fun _ => ⟨c.tagOf addr, true, c.time + 1⟩) (c.setAt addr) j ∧
        ((c.access addr op).1.setAt addr).getD j dw =
          ⟨c.tagOf addr, true, c.time + 1⟩ ∧
        ((((c.setAt addr).getD j dw).valid = false ∧
            ∀ k, k < j → ((c.setAt addr).getD k dw).valid = true) ∨
          ((∀ w ∈ c.setAt addr, w.valid = true) ∧
            ∀ k, k < (c.setAt addr).length →
              ((c.setAt addr).getD j dw).lru ≤ ((c.setAt addr).getD k dw).lru)) ∧
        ∀ k, k < ((c.access addr op).1.setAt addr).length → k ≠ j →
          (((c.access addr op).1.setAt addr).getD k dw).lru < c.time + 1) := by
  have hdeg : ¬c.degenerate := by simp [Cache.degenerate, hns, hw, hb]
  have hidx : c.index addr < c.sets.length := hlen ▸ index_lt c addr hns
  have hmem : c.sets.getD (c.index addr) [] ∈ c.sets := getD_mem_of_lt [] _ _ hidx
  have hsl : (c.setAt addr).length = c.config.ways := hways _ hmem
  have hstamp : ∀ w ∈ c.setAt addr, w.lru ≤ c.time := hst _ hmem
  cases hscan : scanHit (c.tagOf addr) (c.setAt addr) with
  | some j =>
    have heq := access_hit_eq c addr op j hdeg hscan
    obtain ⟨hj, hv, ht, _⟩ := scanHit_some _ _ _ hscan
    have hnew : (c.access addr op).1.setAt addr =
        modifyIdx (fun w => { w with lru := c.time + 1 }) (c.setAt addr) j := by
      rw [heq]
      exact getD_set_sets_self _ _ _ hidx
    refine ⟨by rw [heq], ?_, ?_⟩
    · intro _
      refine ⟨by rw [heq], by rw [heq], by rw [heq], j, hj, hv, ht, hnew, ?_, ?_⟩
      · rw [hnew, getD_modifyIdx_self _ _ _ hj]
      · intro k hk hkj
        rw [hnew, getD_modifyIdx_ne _ _ _ _ hkj]
        have hk2 : k < (c.setAt addr).length := by
          rwa [hnew, modifyIdx_length] at hk
        exact Nat.lt_succ_of_le (hstamp _ (getD_mem_of_lt dw _ _ hk2))
    · intro hno
      exact absurd ⟨_, getD_mem_of_lt dw _ _ hj, hv, ht⟩ hno
  | none =>
    have heq := access_miss_eq c addr op hdeg hscan
    have hnomatch := (scanHit_none_iff (c.tagOf addr) (c.setAt addr)).mp hscan
    have hne : c.setAt addr ≠ [] := by
      intro hnil
      rw [hnil] at hsl
      exact hw hsl.symm
    have hjlt : installIdx (c.setAt addr) < (c.setAt addr).length := by
      unfold installIdx
      cases hinv : scanInvalid (c.setAt addr) with
      | some k => exact (scanInvalid_some _ _ hinv).1
      | none => exact (minLRUIdx_spec _ hne).1
    have hnew : (c.access addr op).1.setAt addr =
        modifyIdx (fun _ => ⟨c.tagOf addr, true, c.time + 1⟩) (c.setAt addr)
          (installIdx (c.setAt addr)) := by
      rw [heq]
      exact getD_set_sets_self _ _ _ hidx
    refine ⟨by rw [heq], ?_, ?_⟩
    · intro ⟨w, hwmem, hwv, hwt⟩
      exact absurd ⟨hwv, hwt⟩ (hnomatch w hwmem)
    · intro _
      refine ⟨by rw [heq], by rw [heq], by rw [heq],
        installIdx (c.setAt addr), hjlt, hnew, ?_, ?_, ?_⟩
      · rw [hnew, getD_modifyIdx_self _ _ _ hjlt]
      · unfold installIdx
        cases hinv : scanInvalid (c.setAt addr) with
        | some k =>
          obtain ⟨h1, h2, h3⟩ := scanInvalid_some _ _ hinv
          exact Or.inl ⟨h2, h3⟩
        | none =>
          exact Or.inr ⟨scanInvalid_none _ hinv, (minLRUIdx_spec _ hne).2⟩
      · intro k hk hkj
        rw [hnew, getD_modifyIdx_ne _ _ _ _ hkj]
        have hk2 : k < (c.setAt addr).length := by
          rwa [hnew, modifyIdx_length] at hk
        exact Nat.lt_succ_of_le (hstamp _ (getD_mem_of_lt dw _ _ hk2))

lemma mkCache_config (cfg : CacheConfig) : (mkCache cfg).config = cfg := by
  unfold mkCache
  dsimp only
  split <;> split <;> rfl

lemma scanHit_cons_neg (tg : Nat) (w : Way) (ws : List Way)
    (hc : (w.valid && w.tag == tg) = false) :
    scanHit tg (w :: ws) = (scanHit tg ws).map (· + 1) := by
  simp [scanHit, hc]

lemma lt_length_of_getD_ne_nil :
    ∀ (l : List (List Way)) (i : Nat), l.getD i [] ≠ [] → i < l.length
  | [], i, h => absurd (by simp) h
  | x :: xs, 0, _ => Nat.succ_pos _
  | x :: xs, i + 1, h =>
      Nat.succ_lt_succ (lt_length_of_getD_ne_nil xs i (by simpa using h))

lemma scanHit_count_zero (tg : Nat) :
    ∀ l : List Way, countMatches tg l = 0 → scanHit tg l = none
  | [], _ => rfl
  | w :: ws, h => by
    by_cases hc : w.valid && w.tag == tg
    · simp only [countMatches, if_pos hc] at h
      omega
    · rw [Bool.not_eq_true] at hc
      simp only [countMatches, hc, Bool.false_eq_true, if_false, Nat.zero_add] at h
      rw [scanHit_cons_neg tg w ws hc, scanHit_count_zero tg ws h]
      rfl

lemma scanHit_clear (tg : Nat) :
    ∀ (l : List Way) (j : Nat), countMatches tg l ≤ 1 → scanHit tg l = some j →
      scanHit tg (modifyIdx (fun w => { w with valid := false }) l j) = none
  | [], j, _, h => by simp [scanHit] at h
  | w :: ws, j, hcount, h => by
    by_cases hc : w.valid && w.tag == tg
    · simp only [scanHit, if_pos hc, Option.some.injEq] at h
      subst h
      have hws : countMatches tg ws = 0 := by
        simp only [countMatches, if_pos hc] at hcount
        omega
      have hhead : (({ w with valid := false } : Way).valid &&
          ({ w with valid := false } : Way).tag == tg) = false := by
        simp
      rw [show modifyIdx (fun w => { w with valid := false }) (w :: ws) 0 =
            ({ w with valid := false } : Way) :: ws from rfl,
          scanHit_cons_neg tg _ ws hhead, scanHit_count_zero tg ws hws]
      rfl
    · rw [Bool.not_eq_true] at hc
      rw [scanHit_cons_neg tg w ws hc] at h
      rw [Option.map_eq_some'] at h
      obtain ⟨j', hj', rfl⟩ := h
      have hcount' : countMatches tg ws ≤ 1 := by
        simp only [countMatches, hc, Bool.false_eq_true, if_false, Nat.zero_add] at hcount
        exact hcount
      rw [show modifyIdx (fun w => { w with valid := false }) (w :: ws) (j' + 1) =
            w :: modifyIdx (fun w => { w with valid := false }) ws j' from rfl,
          scanHit_cons_neg tg w _ hc, scanHit_clear tg ws j' hcount' hj']
      rfl

lemma invalidate_none_eq (c : Cache) (addr : Nat) (hdeg : ¬c.degenerate)
    (hscan : scanHit (c.tagOf addr) (c.sets.getD (c.index addr) []) = none) :
    c.invalidate addr = c := by
  unfold Cache.invalidate
  rw [if_neg hdeg]
  simp only [hscan]

lemma invalidate_some_eq (c : Cache) (addr : Nat) (j : Nat) (hdeg : ¬c.degenerate)
    (hscan : scanHit (c.tagOf addr) (c.sets.getD (c.index addr) []) = some j) :
    c.invalidate addr =
      { c with sets := c.sets.set (c.index addr)
                         (modifyIdx (fun w => { w with valid := false })
                           (c.sets.getD (c.index addr) []) j) } := by
  unfold Cache.invalidate
  rw [if_neg hdeg]
  simp only [hscan]

/-- Witness for C1: the very first access on a fresh 2-set, 2-way cache
satisfies the access theorem's hypotheses and misses, counting one miss. -/
theorem cache_access_correct_witness :
    ((mkCache ⟨64, 16, 2, 10⟩).access 0 .read).2 = false ∧
    ((mkCache ⟨64, 16, 2, 10⟩).access 0 .read).1.misses =
      (mkCache ⟨64, 16, 2, 10⟩).misses + 1 := by
  have h := cache_access_correct (mkCache ⟨64, 16, 2, 10⟩) 0 .read
    (by decide) (by decide) (by decide) (by decide) (by decide) (by decide)
  obtain ⟨-, -, h3⟩ := h
  have h4 := h3 (by decide)
  exact ⟨h4.1, h4.2.1⟩

/-- Counterexample for C8: with zero ways the degenerate guard still
increments the misses counter, so the access does not leave the cache
state entirely unchanged. -/
theorem cache_degenerate_claim_false :
    ((mkCache ⟨64, 16, 0, 10⟩).access 0 .read).1 ≠ mkCache ⟨64, 16, 0, 10⟩ ∧
    ((mkCache ⟨64, 16, 0, 10⟩).access 0 .read).1.misses = 1 ∧
    (mkCache ⟨64, 16, 0, 10⟩).misses = 0 := by
  refine ⟨?_, by decide, by decide⟩
  intro h
  have : ((mkCache ⟨64, 16, 0, 10⟩).access 0 .read).1.misses =
      (mkCache ⟨64, 16, 0, 10⟩).misses := by rw [h]
  simp only [show ((mkCache ⟨64, 16, 0, 10⟩).access 0 .read).1.misses = 1 from by decide,
    show (mkCache ⟨64, 16, 0, 10⟩).misses = 0 from by decide] at this
  exact absurd this (by decide)

/-- C8 amended: on every state of a cache with zero sets or zero ways
(as constructed from a degenerate configuration — a property `access`
preserves, so this covers every access of a run), every access returns
miss and installs nothing — hits, clock and the ways are unchanged —
but the misses counter increments by one. -/
theorem cache_degenerate_access (c : Cache) (addr : Nat) (op : CacheOperation)
    (h : c.numSets = 0 ∨ c.config.ways = 0) :
    (c.access addr op).2 = false ∧
    (c.access addr op).1.misses = c.misses + 1 ∧
    (c.access addr op).1.hits = c.hits ∧
    (c.access addr op).1.time = c.time ∧
    (c.access addr op).1.sets = c.sets ∧
    (c.access addr op).1.numSets = c.numSets ∧
    (c.access addr op).1.config = c.config := by
  have hdeg : c.degenerate := by
    rcases h with h | h
    · exact Or.inl h
    · exact Or.inr (Or.inl h)
  unfold Cache.access
  rw [if_pos hdeg]
  exact ⟨rfl, rfl, rfl, rfl, rfl, rfl, rfl⟩

/-- Witness for C8's amended theorem: a second access on an
already-accessed degenerate cache (a state with `misses = 1`, not of
the freshly-constructed shape) still misses and takes `misses` to 2. -/
theorem cache_degenerate_access_witness :
    (((mkCache ⟨64, 16, 0, 10⟩).access 0 .read).1.access 3 .write).2 = false ∧
    (((mkCache ⟨64, 16, 0, 10⟩).access 0 .read).1.access 3 .write).1.misses
      = 2 := by
  have h := cache_degenerate_access ((mkCache ⟨64, 16, 0, 10⟩).access 0 .read).1
    3 .write (by decide)
  refine ⟨h.1, ?_⟩
  rw [h.2.1]
  decide

/-- C9: on a non-degenerate configuration (with at most one valid way
holding the address's tag, an invariant of every reachable state),
`invalidate addr` followed by `access addr READ` misses, and that
access increments the misses counter by one. -/
theorem invalidate_then_access_misses (c : Cache) (addr : Nat)
    (hns : c.numSets ≠ 0) (hw : c.config.ways ≠ 0) (hb : c.config.blockSize ≠ 0)
    (hdup : countMatches (c.tagOf addr) (c.setAt addr) ≤ 1) :
    ((c.invalidate addr).access addr .read).2 = false ∧
    ((c.invalidate addr).access addr .read).1.misses = c.misses + 1 := by
  have hdeg : ¬c.degenerate := by simp [Cache.degenerate, hns, hw, hb]
  cases hscan : scanHit (c.tagOf addr) (c.setAt addr) with
  | none =>
    have hinv := invalidate_none_eq c addr hdeg (by simpa [Cache.setAt] using hscan)
    rw [hinv]
    rw [access_miss_eq c addr .read hdeg (by simpa [Cache.setAt] using hscan)]
    exact ⟨rfl, rfl⟩
  | some j =>
    have hinv := invalidate_some_eq c addr j hdeg (by simpa [Cache.setAt] using hscan)
    have hjlt : j < (c.setAt addr).length := (scanHit_some _ _ _ hscan).1
    have hidxlt : c.index addr < c.sets.length := by
      apply lt_length_of_getD_ne_nil
      intro hnil
      rw [Cache.setAt, hnil] at hjlt
      exact Nat.not_lt_zero j hjlt
    have hproj : ((c.invalidate addr).index addr = c.index addr) ∧
        ((c.invalidate addr).tagOf addr = c.tagOf addr) ∧
        ((c.invalidate addr).misses = c.misses) := by
      rw [hinv]
      exact ⟨rfl, rfl, rfl⟩
    have hset1 : (c.invalidate addr).sets.getD ((c.invalidate addr).index addr) [] =
        modifyIdx (fun w => { w with valid := false }) (c.setAt addr) j := by
      rw [hproj.1, hinv]
      exact getD_set_sets_self _ _ _ hidxlt
    have hscan2 : scanHit ((c.invalidate addr).tagOf addr)
        ((c.invalidate addr).sets.getD ((c.invalidate addr).index addr) []) = none := by
      rw [hproj.2.1, hset1]
      exact scanHit_clear _ _ _ hdup hscan
    have hdeg2 : ¬(c.invalidate addr).degenerate := by
      rw [hinv]
      exact hdeg
    rw [access_miss_eq (c.invalidate addr) addr .read hdeg2 hscan2]
    exact ⟨rfl, by rw [show ({ (c.invalidate addr) with
      misses := (c.invalidate addr).misses + 1,
      time := (c.invalidate addr).time + 1,
      sets := (c.invalidate addr).sets.set ((c.invalidate addr).index addr)
        (modifyIdx (fun _ => ⟨(c.invalidate addr).tagOf addr, true,
            (c.invalidate addr).time + 1⟩)
          ((c.invalidate addr).sets.getD ((c.invalidate addr).index addr) [])
          (installIdx ((c.invalidate addr).sets.getD
            ((c.invalidate addr).index addr) []))) } : Cache).misses =
      (c.invalidate addr).misses + 1 from rfl, hproj.2.2]⟩

/-- Witness for C9: after one access installs address 0, invalidate
followed by access at 0 misses on a concrete 2-set 2-way cache. -/
theorem invalidate_then_access_misses_witness :
    (((((mkCache ⟨64, 16, 2, 10⟩).access 0 .read).1.invalidate 0).access 0 .read).2
      = false) :=
  (invalidate_then_access_misses ((mkCache ⟨64, 16, 2, 10⟩).access 0 .read).1 0
    (by decide) (by decide) (by decide) (by decide)).1

/-- C10: `invalidate` never touches the hit/miss counters, the clock, or
any tag or stamp; it either leaves the cache unchanged (degenerate
config, or no valid way holds the tag) or clears the valid bit of
exactly the first valid way of the indexed set holding the tag. -/
theorem invalidate_frame (c : Cache) (addr : Nat) :
    (c.invalidate addr).hits = c.hits ∧
    (c.invalidate addr).misses = c.misses ∧
    (c.invalidate addr).time = c.time ∧
    (c.invalidate addr).numSets = c.numSets ∧
    (c.invalidate addr).config = c.config ∧
    (∀ i k, (((c.invalidate addr).sets.getD i []).getD k dw).tag =
        ((c.sets.getD i []).getD k dw).tag ∧
      (((c.invalidate addr).sets.getD i []).getD k dw).lru =
        ((c.sets.getD i []).getD k dw).lru) ∧
    (c.invalidate addr = c ∨
      ∃ j, j < (c.setAt addr).length ∧
        ((c.setAt addr).getD j dw).valid = true ∧
        ((c.setAt addr).getD j dw).tag = c.tagOf addr ∧
        (∀ k, k < j → ¬(((c.setAt addr).getD k dw).valid = true ∧
          ((c.setAt addr).getD k dw).tag = c.tagOf addr)) ∧
        (c.invalidate addr).sets = c.sets.set (c.index addr)
          (modifyIdx (fun w => { w with valid := false }) (c.setAt addr) j)) ∧
    (c.degenerate → c.invalidate addr = c) ∧
    ((∀ w ∈ c.setAt addr, ¬(w.valid = true ∧ w.tag = c.tagOf addr)) →
      c.invalidate addr = c) := by
  by_cases hdeg : c.degenerate
  · have heq : c.invalidate addr = c := by
      unfold Cache.invalidate
      rw [if_pos hdeg]
    rw [heq]
    exact ⟨rfl, rfl, rfl, rfl, rfl, fun i k => ⟨rfl, rfl⟩, Or.inl rfl,
      fun _ => rfl, fun _ => rfl⟩
  · cases hscan : scanHit (c.tagOf addr) (c.setAt addr) with
    | none =>
      have heq := invalidate_none_eq c addr hdeg (by simpa [Cache.setAt] using hscan)
      rw [heq]
      exact ⟨rfl, rfl, rfl, rfl, rfl, fun i k => ⟨rfl, rfl⟩, Or.inl rfl,
        fun _ => rfl, fun _ => rfl⟩
    | some j =>
      have heq := invalidate_some_eq c addr j hdeg (by simpa [Cache.setAt] using hscan)
      obtain ⟨hjlt, hv, ht, hfirst⟩ := scanHit_some _ _ _ hscan
      have hidxlt : c.index addr < c.sets.length := by
        apply lt_length_of_getD_ne_nil
        intro hnil
        rw [Cache.setAt, hnil] at hjlt
        exact Nat.not_lt_zero j hjlt
      refine ⟨by rw [heq], by rw [heq], by rw [heq], by rw [heq], by rw [heq],
        ?_, Or.inr ⟨j, hjlt, hv, ht, hfirst, by rw [heq]; rfl⟩, fun h => absurd h hdeg,
        ?_⟩
      · intro i k
        rw [heq]
        dsimp only
        rw [show c.sets.getD (c.index addr) [] = c.setAt addr from rfl]
        by_cases hi : i = c.index addr
        · subst hi
          rw [getD_set_sets_self _ _ _ hidxlt]
          by_cases hk : k = j
          · subst hk
            rw [getD_modifyIdx_self _ _ _ hjlt]
            exact ⟨rfl, rfl⟩
          · rw [getD_modifyIdx_ne _ _ _ _ hk]
            exact ⟨rfl, rfl⟩
        · rw [getD_set_sets_ne _ _ _ _ hi]
          exact ⟨rfl, rfl⟩
      · intro hno
        exact absurd ⟨hv, ht⟩ (hno _ (getD_mem_of_lt dw _ _ hjlt))

/-- Counterexample for C2: during a D-stall cycle the WB latch is not a
BUBBLE — the frozen MEM snapshot is written back (again) through
`simWB`, here republished with NORMAL status. -/
theorem dstall_wb_claim_false :
    0 < c2State.dCacheStallCycles ∧
    (tick semId 4096 c2State).1.wbInst ≠ nop .BUBBLE ∧
    (tick semId 4096 c2State).1.wbInst.status = .NORMAL := by decide

/-- C2 amended: on a cycle starting with `dCacheStallCycles > 0`, the
IF, ID, EX and MEM latches republish exactly their previous contents
and the counter decrements by one, but the WB latch is `simWB` of the
frozen MEM snapshot (not a BUBBLE); PC and the other stall counters are
untouched. -/
theorem dstall_freeze (sem : Sem) (memSize : Nat) (s : SimState)
    (h : 0 < s.dCacheStallCycles) :
    (tick sem memSize s).1.ifInst = s.ifInst ∧
    (tick sem memSize s).1.idInst = s.idInst ∧
    (tick sem memSize s).1.exInst = s.exInst ∧
    (tick sem memSize s).1.memInst = s.memInst ∧
    (tick sem memSize s).1.wbInst = sem.simWB s.memInst ∧
    (tick sem memSize s).1.dCacheStallCycles = s.dCacheStallCycles - 1 ∧
    (tick sem memSize s).1.PC = s.PC ∧
    (tick sem memSize s).1.loadStallCount = s.loadStallCount ∧
    (tick sem memSize s).1.stallCyclesCount = s.stallCyclesCount ∧
    (tick sem memSize s).1.iCacheStallCycles = s.iCacheStallCycles := by
  unfold tick
  rw [if_pos h]
  exact ⟨rfl, rfl, rfl, rfl, rfl, rfl, rfl, rfl, rfl, rfl⟩

/-- Witness for C2's amended theorem on a concrete stalled state. -/
theorem dstall_freeze_witness :
    0 < c2State.dCacheStallCycles ∧
    (tick semId 4096 c2State).1.memInst = c2State.memInst :=
  ⟨by decide, (dstall_freeze semId 4096 c2State (by decide)).2.2.2.1⟩

lemma tick_loadStallCount (sem : Sem) (memSize : Nat) (s : SimState) :
    (tick sem memSize s).1.loadStallCount =
      s.loadStallCount + ((if loadUseFires memSize s then 1 else 0) +
        (if loadBranchFires memSize s then 1 else 0)) := by
  by_cases hd : 0 < s.dCacheStallCycles
  · have hne : s.dCacheStallCycles ≠ 0 := by omega
    have h1 : loadUseFires memSize s = false := by
      unfold loadUseFires
      simp [hne]
    have h2 : loadBranchFires memSize s = false := by
      unfold loadBranchFires
      simp [hne]
    unfold tick
    rw [if_pos hd, h1, h2]
    simp [tickDStall]
  · have hd0 : s.dCacheStallCycles = 0 := by omega
    by_cases hm : ((s.exInst.readsMem || s.exInst.writesMem) &&
        decide (memSize ≤ s.exInst.memAddress)) = true
    · have h1 : loadUseFires memSize s = false := by
        unfold loadUseFires
        simp [hm]
      have h2 : loadBranchFires memSize s = false := by
        unfold loadBranchFires
        simp [hm]
      unfold tick
      rw [if_neg hd, if_pos hm, h1, h2]
      simp [tickMemError]
    · unfold tick
      rw [if_neg hd, if_neg hm]
      have hmain : (tickMain sem memSize s).1.loadStallCount =
          (hazardDetect s.idInst s.exInst s.stallCyclesCount
            s.loadStallCount).loadStallCount := rfl
      rw [hmain]
      rw [Bool.not_eq_true] at hm
      unfold loadUseFires loadBranchFires hazardDetect
      rw [hd0, hm]
      by_cases hp : s.stallCyclesCount = 0
      · by_cases hlu : loadUseCondB s.idInst s.exInst = true
        · simp [hp, hlu]
        · by_cases hab : arithBranchCondB s.idInst s.exInst = true
          · simp [hp, hlu, hab]
          · by_cases hlb : loadBranchCondB s.idInst s.exInst = true
            · simp [hp, hlu, hab, hlb]
            · simp [hp, hlu, hab, hlb]
      · have hp' : 0 < s.stallCyclesCount := by omega
        simp [hp, hp']

lemma steps_loadStallCount (sem : Sem) (memSize : Nat) :
    ∀ (n : Nat) (s : SimState),
      (steps sem memSize n s).loadStallCount =
        s.loadStallCount + countFires (loadUseFires memSize) sem memSize n s +
          countFires (loadBranchFires memSize) sem memSize n s
  | 0, s => by simp [steps, countFires]
  | n + 1, s => by
    simp only [steps, countFires]
    rw [steps_loadStallCount sem memSize n, tick_loadStallCount]
    omega

/-- C4: along any run from `initSimulator`, `loadStallCount` equals the
number of cycles on which a load-use hazard fired plus the number of
cycles on which a load-branch hazard fired its first stall cycle; the
second cycle of a load-branch stall (pending counter positive) and
arith-branch stalls never increment it. -/
theorem loadStallCount_counts_events (sem : Sem) (memSize : Nat)
    (iCfg dCfg : CacheConfig) (n : Nat) :
    (steps sem memSize n (initSimulator iCfg dCfg)).loadStallCount =
      countFires (loadUseFires memSize) sem memSize n (initSimulator iCfg dCfg) +
        countFires (loadBranchFires memSize) sem memSize n
          (initSimulator iCfg dCfg) := by
  rw [steps_loadStallCount]
  simp [initSimulator]

lemma loadUseCondB_iff (idp exPrev : Instruction) :
    loadUseCondB idp exPrev = true ↔
      (exPrev.readsMem = true ∧ exPrev.writesRd = true ∧ exPrev.rd ≠ 0 ∧
       isCtrlB idp = false ∧
       (idp.rs1 = exPrev.rd ∨
        (idp.rs2 = exPrev.rd ∧ isStoreB idp = false))) := by
  unfold loadUseCondB
  simp only [Bool.and_eq_true, Bool.or_eq_true, Bool.not_eq_true', beq_iff_eq,
    beq_eq_false_iff_ne, and_assoc]

lemma hazardDetect_loadUse (idp exPrev : Instruction) (cnt : Nat)
    (hlu : loadUseCondB idp exPrev = true) :
    hazardDetect idp exPrev 0 cnt = ⟨true, true, 0, cnt + 1⟩ := by
  unfold hazardDetect
  rw [if_neg (by omega), if_pos hlu]

lemma tickMain_loadUse_effects (sem : Sem) (memSize : Nat) (s : SimState)
    (hp : s.stallCyclesCount = 0)
    (hlu : loadUseCondB s.idInst s.exInst = true) :
    (tickMain sem memSize s).1.ifInst = s.ifInst ∧
    (tickMain sem memSize s).1.idInst = s.idInst ∧
    (tickMain sem memSize s).1.exInst = nop .BUBBLE ∧
    (tickMain sem memSize s).1.loadStallCount = s.loadStallCount + 1 ∧
    (tickMain sem memSize s).1.stallCyclesCount = 0 := by
  have hz : hazardDetect s.idInst s.exInst s.stallCyclesCount s.loadStallCount =
      ⟨true, true, 0, s.loadStallCount + 1⟩ := by
    rw [hp]
    exact hazardDetect_loadUse _ _ _ hlu
  have hR := (loadUseCondB_iff _ _).mp hlu
  have hbr : isCtrlB s.idInst = false := hR.2.2.2.1
  have hrm : s.exInst.readsMem = true := hR.1
  simp [tickMain, hz, hbr, hrm]

/-- Counterexample for C3: a load-use stall fires (EX becomes a BUBBLE
and `loadStallCount` increments) even though `reads_rs1` is false and
`rs2` does not match, so the spec's `haz1`/`haz2` (which consult the
reads flags) are both false and it predicts no stall. -/
theorem loaduse_readsrs_claim_false :
    (tick semId 4096 c3State).1.loadStallCount = c3State.loadStallCount + 1 ∧
    (tick semId 4096 c3State).1.exInst = nop .BUBBLE ∧
    (tick semId 4096 c3State).1.ifInst = c3State.ifInst ∧
    c3State.idInst.readsRs1 = false ∧
    c3State.idInst.rs1 = c3State.exInst.rd ∧
    ¬(c3State.idInst.readsRs1 = true ∧ c3State.idInst.rs1 = c3State.exInst.rd) ∧
    ¬(c3State.idInst.readsRs2 = true ∧ c3State.idInst.rs2 = c3State.exInst.rd) := by
  decide

/-- C3 amended: with no pending load-branch extra stall, no D-stall and
no memory exception, the load-use stall (hold IF and ID, bubble EX,
count one load stall, no extra pending cycle) fires iff EX' is a load
writing a nonzero rd, ID' is not a control instruction, and `rs1`
matches `rd`, or `rs2` matches and ID' is not a store — the
`reads_rs1`/`reads_rs2` flags are not consulted. -/
theorem loaduse_stall_iff (sem : Sem) (memSize : Nat) (s : SimState)
    (hd : s.dCacheStallCycles = 0)
    (hp : s.stallCyclesCount = 0)
    (hm : ((s.exInst.readsMem || s.exInst.writesMem) &&
      decide (memSize ≤ s.exInst.memAddress)) = false) :
    ((tick sem memSize s).1.ifInst = s.ifInst ∧
     (tick sem memSize s).1.idInst = s.idInst ∧
     (tick sem memSize s).1.exInst = nop .BUBBLE ∧
     (tick sem memSize s).1.loadStallCount = s.loadStallCount + 1 ∧
     (tick sem memSize s).1.stallCyclesCount = 0) ↔
    (s.exInst.readsMem = true ∧ s.exInst.writesRd = true ∧ s.exInst.rd ≠ 0 ∧
     isCtrlB s.idInst = false ∧
     (s.idInst.rs1 = s.exInst.rd ∨
      (s.idInst.rs2 = s.exInst.rd ∧ isStoreB s.idInst = false))) := by
  have htick : tick sem memSize s = tickMain sem memSize s := by
    unfold tick
    rw [if_neg (by omega), if_neg (by simp [hm])]
  rw [htick]
  constructor
  · intro hL
    by_cases hlu : loadUseCondB s.idInst s.exInst = true
    · exact (loadUseCondB_iff _ _).mp hlu
    · exfalso
      have hcnt : (tickMain sem memSize s).1.loadStallCount =
          (hazardDetect s.idInst s.exInst s.stallCyclesCount
            s.loadStallCount).loadStallCount := rfl
      have hstc : (tickMain sem memSize s).1.stallCyclesCount =
          (hazardDetect s.idInst s.exInst s.stallCyclesCount
            s.loadStallCount).stallCyclesCount := rfl
      unfold hazardDetect at hcnt hstc
      rw [hp] at hcnt hstc
      rw [if_neg (by omega), if_neg hlu] at hcnt hstc
      by_cases hab : arithBranchCondB s.idInst s.exInst = true
      · rw [if_pos hab] at hcnt
        have h4 := hL.2.2.2.1
        rw [hcnt] at h4
        simp at h4
      · rw [if_neg hab] at hcnt hstc
        by_cases hlb : loadBranchCondB s.idInst s.exInst = true
        · rw [if_pos hlb] at hstc
          have h5 := hL.2.2.2.2
          rw [hstc] at h5
          simp at h5
        · rw [if_neg hlb] at hcnt
          have h4 := hL.2.2.2.1
          rw [hcnt] at h4
          simp at h4
  · intro hR
    exact tickMain_loadUse_effects sem memSize s hp ((loadUseCondB_iff _ _).mpr hR)

/-- Witness for C3's amended theorem: on `c3State` the hypotheses hold
and the equivalence instantiates (the stall fires since rs1 matches). -/
theorem loaduse_stall_iff_witness :
    (tick semId 4096 c3State).1.loadStallCount = c3State.loadStallCount + 1 :=
  (((loaduse_stall_iff semId 4096 c3State (by decide) (by decide)
    (by decide)).mpr (by decide)).2.2.2.1)

/-- C6: when no D-stall is in progress and the EX snapshot needs memory
with `mem_addr ≥ MEMORY_SIZE`, the older MEM snapshot still writes back
through `simWB`, the excepting instruction and all younger stages
become squashed NOPs, both cache-stall counters clear, the fetch PC
becomes the handler `0x8000`, and `runCycles` returns ERROR at the end
of that cycle. -/
theorem mem_exception_precise (sem : Sem) (memSize : Nat) (s : SimState)
    (hd : s.dCacheStallCycles = 0)
    (hneed : (s.exInst.readsMem || s.exInst.writesMem) = true)
    (haddr : memSize ≤ s.exInst.memAddress) :
    (tick sem memSize s).1.wbInst = sem.simWB s.memInst ∧
    (tick sem memSize s).1.memInst = nop .SQUASHED ∧
    (tick sem memSize s).1.exInst = nop .SQUASHED ∧
    (tick sem memSize s).1.idInst = nop .SQUASHED ∧
    (tick sem memSize s).1.ifInst = nop .SQUASHED ∧
    (tick sem memSize s).1.PC = 0x8000 ∧
    (tick sem memSize s).1.iCacheStallCycles = 0 ∧
    (tick sem memSize s).1.dCacheStallCycles = 0 ∧
    (tick sem memSize s).2 = .errorStop ∧
    (∀ n : Nat, runCycles sem memSize (n + 1) s =
      ((tick sem memSize s).1, .ERROR)) := by
  have hcond : ((s.exInst.readsMem || s.exInst.writesMem) &&
      decide (memSize ≤ s.exInst.memAddress)) = true := by
    rw [hneed]
    simp [haddr]
  have htick : tick sem memSize s = tickMemError sem s := by
    unfold tick
    rw [if_neg (by omega), if_pos hcond]
  refine ⟨by rw [htick]; rfl, by rw [htick]; rfl, by rw [htick]; rfl,
    by rw [htick]; rfl, by rw [htick]; rfl, by rw [htick]; rfl,
    by rw [htick]; rfl, by rw [htick]; rfl, by rw [htick]; rfl, ?_⟩
  intro n
  simp only [runCycles, runCyclesAux]
  rw [htick]
  rfl

/-- Witness for C6 at a concrete out-of-range access. -/
theorem mem_exception_precise_witness :
    (tick semId 4096 c6State).1.PC = 0x8000 ∧
    (tick semId 4096 c6State).1.wbInst = semId.simWB c6State.memInst :=
  ⟨(mem_exception_precise semId 4096 c6State (by decide) (by decide)
      (by decide)).2.2.2.2.2.1,
   (mem_exception_precise semId 4096 c6State (by decide) (by decide)
      (by decide)).1⟩

/-- Counterexample for C7: `init` performs no I-cache access at all (the
I-cache counters are both zero afterwards) and the IF latch starts as
the IDLE NOP, not a SPECULATIVE fetched instruction. -/
theorem init_fetch_claim_false :
    (initSimulator ⟨64, 16, 2, 10⟩ ⟨64, 16, 2, 10⟩).ifInst.status = .IDLE ∧
    (initSimulator ⟨64, 16, 2, 10⟩ ⟨64, 16, 2, 10⟩).ifInst.status ≠
      .SPECULATIVE ∧
    (initSimulator ⟨64, 16, 2, 10⟩ ⟨64, 16, 2, 10⟩).iCache.hits = 0 ∧
    (initSimulator ⟨64, 16, 2, 10⟩ ⟨64, 16, 2, 10⟩).iCache.misses = 0 ∧
    (initSimulator ⟨64, 16, 2, 10⟩ ⟨64, 16, 2, 10⟩).iCacheStallCycles = 0 := by
  decide

lemma mkCache_counters (cfg : CacheConfig) :
    (mkCache cfg).hits = 0 ∧ (mkCache cfg).misses = 0 ∧
    (mkCache cfg).time = 0 := by
  unfold mkCache
  dsimp only
  refine ⟨?_, ?_, ?_⟩ <;> (split <;> split <;> rfl)

/-- C7 amended: `init` performs no cache access and installs no fetched
instruction: all five latches (the IF latch included) start as the
encoded NOP `0x00000013` in state IDLE, `PC = 0`, all stall counters
are zero and both caches are freshly constructed with zero hits and
misses. -/
theorem init_state_idle (iCfg dCfg : CacheConfig) :
    (initSimulator iCfg dCfg).ifInst = nop .IDLE ∧
    (initSimulator iCfg dCfg).idInst = nop .IDLE ∧
    (initSimulator iCfg dCfg).exInst = nop .IDLE ∧
    (initSimulator iCfg dCfg).memInst = nop .IDLE ∧
    (initSimulator iCfg dCfg).wbInst = nop .IDLE ∧
    (initSimulator iCfg dCfg).ifInst.instruction = 0x00000013 ∧
    (initSimulator iCfg dCfg).ifInst.status = .IDLE ∧
    (initSimulator iCfg dCfg).PC = 0 ∧
    (initSimulator iCfg dCfg).iCacheStallCycles = 0 ∧
    (initSimulator iCfg dCfg).dCacheStallCycles = 0 ∧
    (initSimulator iCfg dCfg).stallCyclesCount = 0 ∧
    (initSimulator iCfg dCfg).loadStallCount = 0 ∧
    (initSimulator iCfg dCfg).iCache.hits +
      (initSimulator iCfg dCfg).iCache.misses = 0 ∧
    (initSimulator iCfg dCfg).dCache.hits +
      (initSimulator iCfg dCfg).dCache.misses = 0 := by
  refine ⟨rfl, rfl, rfl, rfl, rfl, rfl, rfl, rfl, rfl, rfl, rfl, rfl, ?_, ?_⟩
  · rw [show (initSimulator iCfg dCfg).iCache = mkCache iCfg from rfl,
      (mkCache_counters iCfg).1, (mkCache_counters iCfg).2.1]
  · rw [show (initSimulator iCfg dCfg).dCache = mkCache dCfg from rfl,
      (mkCache_counters dCfg).1, (mkCache_counters dCfg).2.1]

lemma hazardDetect_none (idp exPrev : Instruction) (cnt : Nat)
    (hlu : loadUseCondB idp exPrev = false)
    (hab : arithBranchCondB idp exPrev = false)
    (hlb : loadBranchCondB idp exPrev = false) :
    hazardDetect idp exPrev 0 cnt = ⟨false, false, 0, cnt⟩ := by
  unfold hazardDetect
  rw [if_neg (by omega), if_neg (by simp [hlu]), if_neg (by simp [hab]),
    if_neg (by simp [hlb])]

/-- Counterexample for C5: the branch resolves taken (ID becomes
SQUASHED and the next fetch PC is the resolved target), but the
just-fetched IF latch is republished unchanged with SPECULATIVE status
— it does not become SQUASHED — and the I-cache is untouched (no
invalidate call). -/
theorem branch_taken_if_claim_false :
    isCtrlB c5State.idInst = true ∧
    (tick sem5 4096 c5State).1.idInst = nop .SQUASHED ∧
    (tick sem5 4096 c5State).1.PC = 64 ∧
    (tick sem5 4096 c5State).1.ifInst = c5State.ifInst ∧
    (tick sem5 4096 c5State).1.ifInst.status = .SPECULATIVE ∧
    (tick sem5 4096 c5State).1.ifInst.status ≠ .SQUASHED ∧
    (tick sem5 4096 c5State).1.iCache = c5State.iCache := by
  decide

/-- C5 amended: on a tick where the ID snapshot holds a control
instruction that resolves taken and no stall of any kind applies, the
new ID latch becomes SQUASHED, the IF latch republishes the speculative
fetch unchanged (it is not squashed), the I-miss counter is (left)
zero, the I-cache is untouched (no invalidate and no fetch access this
cycle), and the next-cycle fetch PC equals the resolved `next_pc`. -/
theorem branch_taken_effects (sem : Sem) (memSize : Nat) (s : SimState)
    (hd : s.dCacheStallCycles = 0)
    (hp : s.stallCyclesCount = 0)
    (hm : ((s.exInst.readsMem || s.exInst.writesMem) &&
      decide (memSize ≤ s.exInst.memAddress)) = false)
    (hi : s.iCacheStallCycles = 0)
    (hlu : loadUseCondB s.idInst s.exInst = false)
    (hab : arithBranchCondB s.idInst s.exInst = false)
    (hlb : loadBranchCondB s.idInst s.exInst = false)
    (hbr : isCtrlB s.idInst = true)
    (htaken : (sem.simNextPCResolution (forwardBoth
        (forwardBoth s.idInst s.exInst s.memInst) s.exInst
        s.memInst)).nextPC ≠
      (sem.simNextPCResolution (forwardBoth
        (forwardBoth s.idInst s.exInst s.memInst) s.exInst
        s.memInst)).PC + 4) :
    (tick sem memSize s).1.idInst = nop .SQUASHED ∧
    (tick sem memSize s).1.ifInst = s.ifInst ∧
    (tick sem memSize s).1.iCacheStallCycles = 0 ∧
    (tick sem memSize s).1.iCache = s.iCache ∧
    (tick sem memSize s).1.PC =
      (sem.simNextPCResolution (forwardBoth
        (forwardBoth s.idInst s.exInst s.memInst) s.exInst
        s.memInst)).nextPC := by
  have htick : tick sem memSize s = tickMain sem memSize s := by
    unfold tick
    rw [if_neg (by omega), if_neg (by simp [hm])]
  have hz : hazardDetect s.idInst s.exInst s.stallCyclesCount s.loadStallCount =
      ⟨false, false, 0, s.loadStallCount⟩ := by
    rw [hp]
    exact hazardDetect_none _ _ _ hlu hab hlb
  have hbt : ((sem.simNextPCResolution (forwardBoth
      (forwardBoth s.idInst s.exInst s.memInst) s.exInst
      s.memInst)).nextPC ==
    (sem.simNextPCResolution (forwardBoth
      (forwardBoth s.idInst s.exInst s.memInst) s.exInst
      s.memInst)).PC + 4) = false := by
    exact beq_eq_false_iff_ne.mpr htaken
  rw [htick]
  simp [tickMain, hz, hbr, hi, hbt]

/-- Witness for C5's amended theorem: at `c5State` the hypotheses hold
and the redirected fetch PC is the resolved target 64. -/
theorem branch_taken_effects_witness :
    (tick sem5 4096 c5State).1.PC = 64 := by
  have h := (branch_taken_effects sem5 4096 c5State (by decide) (by decide)
    (by decide) (by decide) (by decide) (by decide) (by decide) (by decide)
    (by decide)).2.2.2.2
  rw [h]
  decide
